import Mathlib

/-!
Shallow embedding of `rss_generator.py`: an RSS scraper that selects article
fragments from a parsed page, extracts title/link/summary/raw-date fields,
deduplicates by link with a size limit, normalizes heterogeneous date strings
to RFC-2822 form, and assembles an RSS 2.0 document.

Every definition mirrors the corresponding place in the Python source;
line numbers in doc comments refer to `src/rss_generator.py`.
-/

namespace RssGen

/-- The record dictionary appended by `parse_articles` (lines 74-79):
`{"title": ..., "link": ..., "summary": ..., "pubdate_raw": ...}`.
`pubdate_raw` is `None` or a string, so it is an `Option String`. -/
structure Record where
  title : String
  link : String
  summary : String
  pubdateRaw : Option String
deriving DecidableEq, Repr

/-- Constant `MAX_ITEMS = 40` (line 17). -/
def MAX_ITEMS : Nat := 40

/-- The dedup loop of `parse_articles` (lines 84-93) with the module constant
`MAX_ITEMS` abstracted as the parameter `maxItems`:

```
seen = set(); dedup = []
for it in results:
    if it["link"] in seen: continue
    seen.add(it["link"])
    dedup.append(it)
    if len(dedup) >= MAX_ITEMS: break
return dedup
```

The loop state is the remaining input, the `seen` set (as a list of links) and
the accumulator `dedup`.  Note the limit test runs only *after* appending. -/
def dedupLoop (maxItems : Nat) : List Record → List String → List Record → List Record
  | [], _, acc => acc
  | it :: rest, seen, acc =>
    if it.link ∈ seen then dedupLoop maxItems rest seen acc
    else
      if maxItems ≤ acc.length + 1 then acc ++ [it]
      else dedupLoop maxItems rest (it.link :: seen) (acc ++ [it])

/-- The spec's `dedupe_and_limit(records, max_count)`: the dedup loop started
on empty `seen`/`dedup` state (lines 84-93). -/
def dedupe_and_limit (maxItems : Nat) (results : List Record) : List Record :=
  dedupLoop maxItems results [] []

/-- First-occurrence link dedup with no limit; reference version used to
analyse the loop. -/
def dedupFirst : List Record → List String → List Record
  | [], _ => []
  | it :: rest, seen =>
    if it.link ∈ seen then dedupFirst rest seen
    else it :: dedupFirst rest (it.link :: seen)

/-- Number of records whose link does not occur earlier and is not in `seen`
(the count of first-occurrence-unique links). -/
def countNew : List Record → List String → Nat
  | [], _ => 0
  | it :: rest, seen =>
    if it.link ∈ seen then countNew rest seen else countNew rest (it.link :: seen) + 1

theorem dedupLoop_eq_take (m : Nat) :
    ∀ (l : List Record) (seen : List String) (acc : List Record),
      acc.length < max m 1 →
      dedupLoop m l seen acc = acc ++ (dedupFirst l seen).take (max m 1 - acc.length) := by
  intro l
  induction l with
  | nil => intro seen acc _; simp [dedupLoop, dedupFirst]
  | cons it rest ih =>
    intro seen acc hacc
    by_cases hmem : it.link ∈ seen
    · simp [dedupLoop, dedupFirst, hmem, ih seen acc hacc]
    · by_cases hstop : m ≤ acc.length + 1
      · have hmax : max m 1 - acc.length = 1 := by omega
        simp [dedupLoop, dedupFirst, hmem, hstop, hmax]
      · have hlt : (acc ++ [it]).length < max m 1 := by
          simp; omega
        have := ih (it.link :: seen) (acc ++ [it]) hlt
        simp only [dedupLoop, dedupFirst, if_neg hmem, if_neg hstop, this]
        obtain ⟨k, hk⟩ : ∃ k, max m 1 - acc.length = k + 1 :=
          ⟨max m 1 - acc.length - 1, by omega⟩
        have hk2 : max m 1 - (acc.length + 1) = k := by omega
        simp [hk, hk2, List.take_succ_cons]

theorem dedupe_and_limit_eq_take (m : Nat) (l : List Record) :
    dedupe_and_limit m l = (dedupFirst l []).take (max m 1) := by
  have := dedupLoop_eq_take m l [] [] (by positivity)
  simpa [dedupe_and_limit] using this

theorem dedupFirst_sublist : ∀ (l : List Record) (seen : List String),
    (dedupFirst l seen).Sublist l := by
  intro l
  induction l with
  | nil => intro seen; simp [dedupFirst]
  | cons it rest ih =>
    intro seen
    by_cases hmem : it.link ∈ seen
    · simpa [dedupFirst, hmem] using (ih seen).cons it
    · simpa [dedupFirst, hmem] using (ih (it.link :: seen)).cons₂ it

/-- Every record kept by `dedupFirst` has a link outside `seen` and is the
first record of the input carrying its link. -/
theorem dedupFirst_mem_spec : ∀ (l : List Record) (seen : List String),
    ∀ r ∈ dedupFirst l seen,
      r.link ∉ seen ∧ (l.filter (fun x => x.link == r.link)).head? = some r := by
  intro l
  induction l with
  | nil => intro seen r hr; simp [dedupFirst] at hr
  | cons it rest ih =>
    intro seen r hr
    by_cases hmem : it.link ∈ seen
    · simp only [dedupFirst, if_pos hmem] at hr
      obtain ⟨hnot, hhead⟩ := ih seen r hr
      have hne : ¬(it.link == r.link) = true := by
        intro h
        exact hnot (by simpa using (beq_iff_eq.mp h) ▸ hmem)
      refine ⟨hnot, ?_⟩
      simp only [List.filter_cons, hne]
      simpa using hhead
    · simp only [dedupFirst, if_neg hmem] at hr
      rcases List.mem_cons.mp hr with hr | hr
      · subst hr
        refine ⟨hmem, ?_⟩
        simp [List.filter_cons]
      · obtain ⟨hnot, hhead⟩ := ih (it.link :: seen) r hr
        have hne : ¬(it.link == r.link) = true := by
          intro h
          exact hnot (by simp [beq_iff_eq.mp h])
        refine ⟨fun hmem' => hnot (by simp [hmem']), ?_⟩
        simp only [List.filter_cons, hne]
        simpa using hhead

theorem dedupFirst_links_nodup : ∀ (l : List Record) (seen : List String),
    ((dedupFirst l seen).map Record.link).Nodup := by
  intro l
  induction l with
  | nil => intro seen; simp [dedupFirst]
  | cons it rest ih =>
    intro seen
    by_cases hmem : it.link ∈ seen
    · simpa [dedupFirst, hmem] using ih seen
    · simp only [dedupFirst, if_neg hmem, List.map_cons, List.nodup_cons]
      refine ⟨?_, ih (it.link :: seen)⟩
      intro hmem'
      obtain ⟨r, hr, hlink⟩ := List.mem_map.mp hmem'
      have := (dedupFirst_mem_spec rest (it.link :: seen) r hr).1
      exact this (by simp [hlink])

theorem dedupFirst_length : ∀ (l : List Record) (seen : List String),
    (dedupFirst l seen).length = countNew l seen := by
  intro l
  induction l with
  | nil => intro seen; simp [dedupFirst, countNew]
  | cons it rest ih =>
    intro seen
    by_cases hmem : it.link ∈ seen
    · simp [dedupFirst, countNew, hmem, ih]
    · simp [dedupFirst, countNew, hmem, ih]

/-- Lemma: `countNew` counts the distinct links not already seen. -/
theorem countNew_eq_card : ∀ (l : List Record) (seen : List String),
    countNew l seen = ((l.map Record.link).toFinset \ seen.toFinset).card := by
  intro l
  induction l with
  | nil => intro seen; simp [countNew]
  | cons it rest ih =>
    intro seen
    by_cases hmem : it.link ∈ seen
    · have : insert it.link (rest.map Record.link).toFinset \ seen.toFinset
          = (rest.map Record.link).toFinset \ seen.toFinset := by
        ext x
        simp only [Finset.mem_sdiff, Finset.mem_insert, List.mem_toFinset]
        constructor
        · rintro ⟨hx | hx, hns⟩
          · exact absurd (hx ▸ hmem) (by simpa using hns)
          · exact ⟨hx, hns⟩
        · rintro ⟨hx, hns⟩; exact ⟨Or.inr hx, hns⟩
      simp [countNew, hmem, ih, this]
    · simp only [countNew, if_neg hmem, ih, List.map_cons, List.toFinset_cons]
      have hL : (rest.map Record.link).toFinset \ insert it.link seen.toFinset
          = ((rest.map Record.link).toFinset \ seen.toFinset).erase it.link := by
        ext x
        simp only [Finset.mem_sdiff, Finset.mem_insert,
          Finset.mem_erase, List.mem_toFinset]
        tauto
      have hR : insert it.link (rest.map Record.link).toFinset \ seen.toFinset
          = insert it.link ((rest.map Record.link).toFinset \ seen.toFinset) := by
        ext x
        simp only [Finset.mem_sdiff, Finset.mem_insert, List.mem_toFinset]
        constructor
        · rintro ⟨hx | hx, hns⟩
          · exact Or.inl hx
          · exact Or.inr ⟨hx, by simpa using hns⟩
        · rintro (hx | ⟨hx, hns⟩)
          · exact ⟨Or.inl hx, by simp [hx, hmem]⟩
          · exact ⟨Or.inr hx, hns⟩
      rw [hL, hR]
      by_cases hin : it.link ∈ (rest.map Record.link).toFinset \ seen.toFinset
      · rw [Finset.card_erase_of_mem hin, Finset.insert_eq_self.mpr hin]
        have : 0 < ((rest.map Record.link).toFinset \ seen.toFinset).card :=
          Finset.card_pos.mpr ⟨it.link, hin⟩
        omega
      · rw [Finset.erase_eq_of_not_mem hin, Finset.card_insert_of_not_mem hin]

/-- C1: for every input list of records and every positive `max_count`, the
dedup loop of `parse_articles` returns an order-preserving subsequence of the
input with pairwise-distinct links, whose length is
`min (number of distinct links) max_count`, keeping the first occurrence of
each link. -/
theorem dedupe_and_limit_correct (l : List Record) (m : Nat) (hm : 1 ≤ m) :
    (dedupe_and_limit m l).Sublist l ∧
    ((dedupe_and_limit m l).map Record.link).Nodup ∧
    (dedupe_and_limit m l).length = min ((l.map Record.link).toFinset.card) m ∧
    ∀ r ∈ dedupe_and_limit m l,
      (l.filter (fun x => x.link == r.link)).head? = some r := by
  have hmax : max m 1 = m := by omega
  have heq := dedupe_and_limit_eq_take m l
  rw [hmax] at heq
  refine ⟨?_, ?_, ?_, ?_⟩
  · rw [heq]; exact (List.take_sublist _ _).trans (dedupFirst_sublist l [])
  · rw [heq, List.map_take]
    exact (dedupFirst_links_nodup l []).sublist (List.take_sublist _ _)
  · rw [heq, List.length_take, dedupFirst_length, countNew_eq_card]
    simp [Nat.min_comm]
  · intro r hr
    rw [heq] at hr
    exact (dedupFirst_mem_spec l [] r ((List.take_sublist _ _).subset hr)).2

/-- Concrete records used to witness the dedup theorems: two share a link. -/
def sampleRecords : List Record :=
  [⟨"A", "https://www.csis.org/a", "sa", none⟩,
   ⟨"B", "https://www.csis.org/a", "sb", none⟩,
   ⟨"C", "https://www.csis.org/c", "sc", some "2024-03-05"⟩]

theorem dedupe_and_limit_correct_witness :
    (dedupe_and_limit 2 sampleRecords).Sublist sampleRecords ∧
    ((dedupe_and_limit 2 sampleRecords).map Record.link).Nodup ∧
    (dedupe_and_limit 2 sampleRecords).length
      = min ((sampleRecords.map Record.link).toFinset.card) 2 ∧
    ∀ r ∈ dedupe_and_limit 2 sampleRecords,
      (sampleRecords.filter (fun x => x.link == r.link)).head? = some r :=
  dedupe_and_limit_correct sampleRecords 2 (by decide)

/-- C9: with `max_count = 0` the loop still returns one record for non-empty
input (the limit test runs only after appending), so `length ≤ max_count`
fails at 0; in general the output length is bounded by `max max_count 1`. -/
theorem dedupe_and_limit_zero_keeps_one :
    (∀ (r : Record) (l : List Record),
        dedupe_and_limit 0 (r :: l) = [r] ∧ (dedupe_and_limit 0 (r :: l)).length = 1) ∧
    (∀ (m : Nat) (l : List Record), (dedupe_and_limit m l).length ≤ max m 1) := by
  constructor
  · intro r l
    constructor <;> simp [dedupe_and_limit, dedupLoop]
  · intro m l
    rw [dedupe_and_limit_eq_take, List.length_take]
    omega

/-! ### Article Selector and Field Extractor

`BeautifulSoup` queries are embedded by their results: an `Anchor` carries the
data the extractor reads from the chosen `<a>` tag, a `Candidate` carries the
results of the per-candidate queries at lines 47-72, and a `Page` carries the
results of the three page-level selector queries at lines 37-42.  A `bs4.Tag`
is always truthy (`Tag.__bool__` returns `True`), so a Python
`select_one(x) or select_one(y)` chain is exactly an `Option` or-else. -/

/-- The chosen `<a>` tag as the extractor sees it: its `href` attribute
(`None` when absent), the stripped text of its first nested `<span>`
(`None` when the anchor has no span), and its own stripped text. -/
structure Anchor where
  href : Option String
  spanText : Option String
  ownText : String
deriving DecidableEq, Repr

/-- A `<time>` tag: its `datetime` attribute (if any) and its stripped text. -/
structure TimeTag where
  datetimeAttr : Option String
  text : String
deriving DecidableEq, Repr

/-- One candidate `<article>` fragment, embedded as the results of the
queries `parse_articles` performs on it (lines 47-72):
`select_one("h3 a")`, `select_one("a")`,
`select_one(".search-listing--summary")` / `.teaser` / `find("p")` (as their
whitespace-collapsed text), `find("time")`, and the byline/credit/date
selector (as its text). -/
structure Candidate where
  h3Anchor : Option Anchor
  anyAnchor : Option Anchor
  summaryListing : Option String
  teaser : Option String
  firstP : Option String
  timeTag : Option TimeTag
  dateMeta : Option String
deriving DecidableEq, Repr

/-- The parsed page, embedded as the results of the three selector queries of
lines 37-42: `soup.select("article.article-search-listing")`,
`soup.select(".views-row article")`, `soup.find_all("article")`. -/
structure Page where
  searchListing : List Candidate
  viewsRow : List Candidate
  anyArticle : List Candidate
deriving Repr

/-- Selector fallback chain (lines 37-42):

```
articles = soup.select("article.article-search-listing")
if not articles: articles = soup.select(".views-row article")
if not articles: articles = soup.find_all("article")
```
-/
def selectArticles (p : Page) : List Candidate :=
  let articles := p.searchListing
  let articles := if articles.isEmpty then p.viewsRow else articles
  let articles := if articles.isEmpty then p.anyArticle else articles
  articles

/-- Constant `BASE_URL` (line 14). -/
def BASE_URL : String := "https://www.csis.org"

/-- String prefix test on the underlying character lists (kernel-reducible
version of `String.startsWith`). -/
def strStarts (s pre : String) : Bool :=
  pre.data.isPrefixOf s.data

/-- Model of `urllib.parse.urljoin(BASE_URL, href)` (line 55) for the href
shapes that occur against this fixed path-less base: absolute URLs pass
through, scheme-relative hrefs get the base's scheme, and other hrefs are
joined onto the authority. -/
def urljoin (base href : String) : String :=
  if strStarts href "http://" || strStarts href "https://" then href
  else if strStarts href "//" then "https:" ++ href
  else if strStarts href "/" then base ++ href
  else base ++ "/" ++ href

/-- Anchor choice `a.select_one("h3 a") or a.select_one("a")` (line 47). -/
def chosenAnchor (c : Candidate) : Option Anchor :=
  match c.h3Anchor with
  | some a => some a
  | none => c.anyAnchor

/-- Title rule (lines 50-51): the anchor's first `<span>`'s text if the span
exists, else the anchor's own text. -/
def titleOfAnchor (a : Anchor) : String :=
  match a.spanText with
  | some t => t
  | none => a.ownText

/-- Summary rule (lines 58-59): `.search-listing--summary`, else `.teaser`,
else first `<p>`, else the empty string. -/
def summaryOf (c : Candidate) : String :=
  match c.summaryListing with
  | some s => s
  | none =>
    match c.teaser with
    | some s => s
    | none =>
      match c.firstP with
      | some s => s
      | none => ""

/-- Raw date rule (lines 62-72): a `<time>` tag's non-empty `datetime`
attribute, else the `<time>` tag's text, else the byline/credit/date
selector's text, else `None`.  (`time_tag.get("datetime")` is falsy both when
the attribute is missing and when it is the empty string.) -/
def rawDateOf (c : Candidate) : Option String :=
  match c.timeTag with
  | some t =>
    match t.datetimeAttr with
    | some d => if d = "" then some t.text else some d
    | none => some t.text
  | none => c.dateMeta

/-- Field extraction for one candidate (lines 44-79).  Returns `none` (the
Python `continue`) when no anchor is found or the anchor's `href` is missing
or empty (`if not href`), else the record appended to `results`.  The
modelled operations are total, so the `except: continue` at lines 80-81 is
unreachable for them. -/
def extractCandidate (c : Candidate) : Option Record :=
  match chosenAnchor c with
  | none => none
  | some aTag =>
    match aTag.href with
    | none => none
    | some href =>
      if href = "" then none
      else
        some { title := titleOfAnchor aTag
               link := urljoin BASE_URL href
               summary := summaryOf c
               pubdateRaw := rawDateOf c }

/-- The extraction loop over all candidates (lines 44-81). -/
def extractAll (cs : List Candidate) : List Record :=
  cs.filterMap extractCandidate

/-- Function `parse_articles` (lines 29-93): select, extract, dedup and limit. -/
def parse_articles (p : Page) : List Record :=
  dedupe_and_limit MAX_ITEMS (extractAll (selectArticles p))

/-- C2: the selector returns exactly the first non-empty strategy result in
the order S1, S2, S3, never merging strategies, and the empty sequence when
all three are empty. -/
theorem selectArticles_first_nonempty (p : Page) :
    (p.searchListing ≠ [] → selectArticles p = p.searchListing) ∧
    (p.searchListing = [] → p.viewsRow ≠ [] → selectArticles p = p.viewsRow) ∧
    (p.searchListing = [] → p.viewsRow = [] → selectArticles p = p.anyArticle) ∧
    (p.searchListing = [] → p.viewsRow = [] → p.anyArticle = [] →
      selectArticles p = []) := by
  refine ⟨?_, ?_, ?_, ?_⟩
  · intro h1
    simp [selectArticles, List.isEmpty_iff, h1]
  · intro h1 h2
    simp [selectArticles, List.isEmpty_iff, h1, h2]
  · intro h1 h2
    simp [selectArticles, List.isEmpty_iff, h1, h2]
  · intro h1 h2 h3
    simp [selectArticles, List.isEmpty_iff, h1, h2, h3]

/-- A concrete candidate with a well-formed anchor, used by witnesses. -/
def goodCandidate : Candidate :=
  { h3Anchor := some ⟨some "/analysis/a", some "Title A", "Title A"⟩
    anyAnchor := none
    summaryListing := some "summary text"
    teaser := none
    firstP := none
    timeTag := some ⟨some "2024-03-05", "March 5, 2024"⟩
    dateMeta := none }

theorem selectArticles_first_nonempty_witness :
    selectArticles ⟨[goodCandidate], [], []⟩ = [goodCandidate] :=
  (selectArticles_first_nonempty ⟨[goodCandidate], [], []⟩).1 (by simp)

/-- Inversion: a record is emitted only from a present anchor with a present,
non-empty `href`, and then every field is determined by the candidate. -/
theorem extractCandidate_eq_some {c : Candidate} {r : Record}
    (h : extractCandidate c = some r) :
    ∃ a href, chosenAnchor c = some a ∧ a.href = some href ∧ href ≠ "" ∧
      r = { title := titleOfAnchor a
            link := urljoin BASE_URL href
            summary := summaryOf c
            pubdateRaw := rawDateOf c } := by
  rcases hca : chosenAnchor c with _ | a
  · simp [extractCandidate, hca] at h
  · rcases hhref : a.href with _ | href
    · simp [extractCandidate, hca, hhref] at h
    · by_cases hemp : href = ""
      · simp [extractCandidate, hca, hhref, hemp] at h
      · simp [extractCandidate, hca, hhref, hemp] at h
        exact ⟨a, href, rfl, hhref, hemp, h.symm⟩

/-- C5: a candidate without an anchor, or whose chosen anchor has no `href`,
produces no record; removing such a candidate leaves the extractor's output
on the remaining candidates unchanged; and every emitted record is complete
(its link always comes from a present, non-empty href — no partial record). -/
theorem extract_skips_without_href (c : Candidate)
    (h : chosenAnchor c = none ∨ ∃ a, chosenAnchor c = some a ∧ a.href = none) :
    extractCandidate c = none ∧
    (∀ (pre post : List Candidate),
      extractAll (pre ++ c :: post) = extractAll pre ++ extractAll post) ∧
    (∀ (cs : List Candidate), ∀ r ∈ extractAll cs,
      ∃ c' a href, c' ∈ cs ∧ chosenAnchor c' = some a ∧ a.href = some href ∧
        href ≠ "" ∧ r.link = urljoin BASE_URL href ∧ r.title = titleOfAnchor a) := by
  have hnone : extractCandidate c = none := by
    rcases h with hca | ⟨a, hca, hhref⟩
    · simp [extractCandidate, hca]
    · simp [extractCandidate, hca, hhref]
  refine ⟨hnone, ?_, ?_⟩
  · intro pre post
    simp [extractAll, List.filterMap_append, List.filterMap_cons, hnone]
  · intro cs r hr
    obtain ⟨c', hc', hex⟩ := List.mem_filterMap.mp hr
    obtain ⟨a, href, hca, hhref, hemp, hrec⟩ := extractCandidate_eq_some hex
    exact ⟨c', a, href, hc', hca, hhref, hemp, by rw [hrec], by rw [hrec]⟩

/-- A candidate with no anchor at all. -/
def noAnchorCandidate : Candidate :=
  { h3Anchor := none, anyAnchor := none, summaryListing := some "s"
    teaser := none, firstP := none, timeTag := none, dateMeta := none }

theorem extract_skips_without_href_witness :
    extractCandidate noAnchorCandidate = none ∧
    (∀ (pre post : List Candidate),
      extractAll (pre ++ noAnchorCandidate :: post)
        = extractAll pre ++ extractAll post) ∧
    (∀ (cs : List Candidate), ∀ r ∈ extractAll cs,
      ∃ c' a href, c' ∈ cs ∧ chosenAnchor c' = some a ∧ a.href = some href ∧
        href ≠ "" ∧ r.link = urljoin BASE_URL href ∧ r.title = titleOfAnchor a) :=
  extract_skips_without_href noAnchorCandidate (Or.inl rfl)

/-- A candidate whose anchor has a valid href but whose span and anchor text
are both empty: `<article><h3><a href="/x"><span></span></a></h3></article>`. -/
def emptyTitleCandidate : Candidate :=
  { h3Anchor := some ⟨some "/x", some "", ""⟩, anyAnchor := none
    summaryListing := none, teaser := none, firstP := none
    timeTag := none, dateMeta := none }

/-- C7 counterexample: the extractor emits a record whose `title` is the
empty string, so the data-model invariant "title is non-empty display text"
does not hold for every emitted record. -/
theorem extract_emits_empty_title :
    extractCandidate emptyTitleCandidate
      = some { title := "", link := "https://www.csis.org/x"
               summary := "", pubdateRaw := none } := by
  decide

/-- C7 amended: every emitted record's title equals the chosen anchor's span
text when a span is present, else the anchor's own text; it may be empty. -/
theorem extract_title_from_anchor (c : Candidate) (r : Record)
    (h : extractCandidate c = some r) :
    ∃ a, chosenAnchor c = some a ∧ r.title = titleOfAnchor a := by
  obtain ⟨a, href, hca, _, _, hrec⟩ := extractCandidate_eq_some h
  exact ⟨a, hca, by rw [hrec]⟩

theorem extract_title_from_anchor_witness :
    ∃ a, chosenAnchor goodCandidate = some a ∧
      ("Title A" : String) = titleOfAnchor a :=
  extract_title_from_anchor goodCandidate
    { title := "Title A", link := "https://www.csis.org/analysis/a"
      summary := "summary text", pubdateRaw := some "2024-03-05" } (by decide)

/-! ### Date Normalizer

`normalize_pubdate` (lines 95-129) runs `datetime.strptime` against the
format lists
`("%Y-%m-%dT%H:%M:%S%z", "%Y-%m-%dT%H:%M:%S.%f%z", "%Y-%m-%dT%H:%M:%S", "%Y-%m-%d")`
and then
`("%b %d, %Y", "%B %d, %Y", "%d %b %Y", "%d %B %Y", "%Y/%m/%d")`,
and formats the first hit (or the current UTC time) with
`"%a, %d %b %Y %H:%M:%S %z"`.

`strptime` semantics embedded here, following CPython's `_strptime`:
each format compiles to a regex that must match the entire stripped input;
`%Y` is exactly four digits; `%m`, `%d`, `%H`, `%M`, `%S` are one or two
digits; `%b`/`%B` match English month abbreviations/names case-insensitively;
a literal space in the format matches one or more whitespace characters;
`%z` matches `Z` or `±HH[:]MM` with minutes at most 59 and total offset under
24 hours; `%f` is one to six digits.  The `datetime` constructor then
validates the calendar fields (year 1-9999, real day-of-month, hour at most
23, minute/second at most 59), so out-of-range fields make that format fail.
A naive result is given UTC (`dt.replace(tzinfo=timezone.utc)`); `%z` results
keep their parsed fixed offset.  The current time `datetime.now(timezone.utc)`
is a parameter `now` of the embedding. -/

/-- The fields of a Python `datetime`: calendar fields plus an optional
fixed timezone offset in minutes east of UTC (`none` = naive; microseconds
are dropped because the output format never shows them). -/
structure DT where
  year : Nat
  month : Nat
  day : Nat
  hour : Nat
  minute : Nat
  second : Nat
  tzOffset : Option Int
deriving DecidableEq, Repr

/-- Gregorian leap year, as `calendar.isleap`. -/
def isLeap (y : Nat) : Bool :=
  (y % 4 == 0 && y % 100 != 0) || y % 400 == 0

/-- Number of days in a month. -/
def daysInMonth (y m : Nat) : Nat :=
  if m = 2 then (if isLeap y then 29 else 28)
  else if m = 4 ∨ m = 6 ∨ m = 9 ∨ m = 11 then 30
  else 31

/-- The validation the `datetime` constructor performs (plus the `%z` offset
bound `timezone` enforces: strictly less than 24 hours). -/
def dtOk (dt : DT) : Bool :=
  decide (1 ≤ dt.year ∧ dt.year ≤ 9999 ∧ 1 ≤ dt.month ∧ dt.month ≤ 12 ∧
    1 ≤ dt.day ∧ dt.day ≤ daysInMonth dt.year dt.month ∧
    dt.hour ≤ 23 ∧ dt.minute ≤ 59 ∧ dt.second ≤ 59) &&
  dt.tzOffset.all (fun off => decide (off.natAbs ≤ 1439))

/-- Construct a `datetime` from parsed fields, failing exactly when the
constructor would raise (`strptime` lets that error propagate to the
per-format `except`). -/
def mkValidDT (y mo d h mi s : Nat) (tz : Option Int) : Option DT :=
  let dt : DT := ⟨y, mo, d, h, mi, s, tz⟩
  if dtOk dt then some dt else none

/-- Whitespace for the regex class `\s` on ASCII input. -/
def isSpaceCh (c : Char) : Bool :=
  c == ' ' || c == '\t' || c == '\n' || c == '\r' || c == '\x0b' || c == '\x0c'

/-- Python `str.strip()` on the raw date string, as a character list. -/
def pyStrip (s : String) : List Char :=
  ((s.data.dropWhile isSpaceCh).reverse.dropWhile isSpaceCh).reverse

/-- Exactly `n` digits (used for `%Y`: four digits). -/
def pDigitsExact : Nat → Nat → List Char → Option (Nat × List Char)
  | 0, acc, cs => some (acc, cs)
  | n + 1, acc, c :: rest =>
    if c.isDigit then pDigitsExact n (acc * 10 + (c.toNat - 48)) rest else none
  | _ + 1, _, [] => none

/-- One or two digits (`%m`, `%d`, `%H`, `%M`, `%S`); two when available.
Range checks happen in `mkValidDT`, which rejects the same strings the
regex alternations plus constructor validation reject for these formats. -/
def pDigits2or1 : List Char → Option (Nat × List Char)
  | c1 :: c2 :: rest =>
    if c1.isDigit then
      if c2.isDigit then some ((c1.toNat - 48) * 10 + (c2.toNat - 48), rest)
      else some (c1.toNat - 48, c2 :: rest)
    else none
  | [c1] => if c1.isDigit then some (c1.toNat - 48, []) else none
  | [] => none

/-- A literal character of the format string. -/
def pLit (c : Char) : List Char → Option (List Char)
  | c' :: rest => if c' == c then some rest else none
  | [] => none

/-- One or more whitespace characters (a literal space in the format becomes
the regex `\s+`). -/
def pWs : List Char → Option (List Char)
  | c :: rest => if isSpaceCh c then some (rest.dropWhile isSpaceCh) else none
  | [] => none

/-- Fractional seconds `%f`: one to six digits (the value is discarded; a
seventh digit cannot be consumed by anything and fails the match). -/
def pFrac (cs : List Char) : Option (List Char) :=
  let digits := cs.takeWhile Char.isDigit
  if digits.length = 0 ∨ 6 < digits.length then none
  else some (cs.drop digits.length)

/-- Timezone `%z`: `Z` (UTC) or `±HH[:]MM`, minutes at most 59, total offset
strictly below 24 hours; result in minutes east of UTC. -/
def pTz : List Char → Option (Int × List Char)
  | 'Z' :: rest => some (0, rest)
  | c :: rest =>
    if c == '+' || c == '-' then
      match rest with
      | h1 :: h2 :: rest2 =>
        if h1.isDigit && h2.isDigit then
          let hh := (h1.toNat - 48) * 10 + (h2.toNat - 48)
          let rest3 := match rest2 with
            | ':' :: r => r
            | r => r
          match rest3 with
          | m1 :: m2 :: rest4 =>
            if m1.isDigit && m2.isDigit then
              let mm := (m1.toNat - 48) * 10 + (m2.toNat - 48)
              if mm ≤ 59 ∧ hh * 60 + mm ≤ 1439 then
                some (if c == '-' then -(hh * 60 + mm : Int) else (hh * 60 + mm : Int), rest4)
              else none
            else none
          | _ => none
        else none
      | _ => none
    else none
  | [] => none

/-- Lowercased English month abbreviations, for `%b`. -/
def monthAbbrs : List String :=
  ["jan", "feb", "mar", "apr", "may", "jun", "jul", "aug", "sep", "oct", "nov", "dec"]

/-- Lowercased English month names, for `%B`. -/
def monthFulls : List String :=
  ["january", "february", "march", "april", "may", "june", "july", "august",
   "september", "october", "november", "december"]

/-- Match one name of `names` case-insensitively at the head of the input,
returning its 1-based index (`%b`/`%B` compile to a case-insensitive
alternation of the month names). -/
def pNameAux : Nat → List String → List Char → Option (Nat × List Char)
  | _, [], _ => none
  | i, n :: rest, cs =>
    if (cs.take n.data.length).map Char.toLower = n.data then
      some (i, cs.drop n.data.length)
    else pNameAux (i + 1) rest cs

def pMonthAbbr (cs : List Char) : Option (Nat × List Char) :=
  pNameAux 1 monthAbbrs cs

def pMonthFull (cs : List Char) : Option (Nat × List Char) :=
  pNameAux 1 monthFulls cs

/-- Raw field parse for `"%Y-%m-%dT%H:%M:%S%z"`. -/
def pIsoTzRaw (cs : List Char) : Option (Nat × Nat × Nat × Nat × Nat × Nat × Int) := do
  let (y, cs) ← pDigitsExact 4 0 cs
  let cs ← pLit '-' cs
  let (mo, cs) ← pDigits2or1 cs
  let cs ← pLit '-' cs
  let (d, cs) ← pDigits2or1 cs
  let cs ← pLit 'T' cs
  let (h, cs) ← pDigits2or1 cs
  let cs ← pLit ':' cs
  let (mi, cs) ← pDigits2or1 cs
  let cs ← pLit ':' cs
  let (s, cs) ← pDigits2or1 cs
  let (off, cs) ← pTz cs
  if cs.isEmpty then some (y, mo, d, h, mi, s, off) else none

/-- Format 1: `"%Y-%m-%dT%H:%M:%S%z"` (line 107). -/
def pFmt_isoTz (cs : List Char) : Option DT :=
  (pIsoTzRaw cs).bind fun (y, mo, d, h, mi, s, off) =>
    mkValidDT y mo d h mi s (some off)

/-- Raw field parse for `"%Y-%m-%dT%H:%M:%S.%f%z"`. -/
def pIsoFracTzRaw (cs : List Char) : Option (Nat × Nat × Nat × Nat × Nat × Nat × Int) := do
  let (y, cs) ← pDigitsExact 4 0 cs
  let cs ← pLit '-' cs
  let (mo, cs) ← pDigits2or1 cs
  let cs ← pLit '-' cs
  let (d, cs) ← pDigits2or1 cs
  let cs ← pLit 'T' cs
  let (h, cs) ← pDigits2or1 cs
  let cs ← pLit ':' cs
  let (mi, cs) ← pDigits2or1 cs
  let cs ← pLit ':' cs
  let (s, cs) ← pDigits2or1 cs
  let cs ← pLit '.' cs
  let cs ← pFrac cs
  let (off, cs) ← pTz cs
  if cs.isEmpty then some (y, mo, d, h, mi, s, off) else none

/-- Format 2: `"%Y-%m-%dT%H:%M:%S.%f%z"` (line 107). -/
def pFmt_isoFracTz (cs : List Char) : Option DT :=
  (pIsoFracTzRaw cs).bind fun (y, mo, d, h, mi, s, off) =>
    mkValidDT y mo d h mi s (some off)

/-- Raw field parse for `"%Y-%m-%dT%H:%M:%S"`. -/
def pIsoNaiveRaw (cs : List Char) : Option (Nat × Nat × Nat × Nat × Nat × Nat) := do
  let (y, cs) ← pDigitsExact 4 0 cs
  let cs ← pLit '-' cs
  let (mo, cs) ← pDigits2or1 cs
  let cs ← pLit '-' cs
  let (d, cs) ← pDigits2or1 cs
  let cs ← pLit 'T' cs
  let (h, cs) ← pDigits2or1 cs
  let cs ← pLit ':' cs
  let (mi, cs) ← pDigits2or1 cs
  let cs ← pLit ':' cs
  let (s, cs) ← pDigits2or1 cs
  if cs.isEmpty then some (y, mo, d, h, mi, s) else none

/-- Format 3: `"%Y-%m-%dT%H:%M:%S"` (naive; line 107). -/
def pFmt_isoNaive (cs : List Char) : Option DT :=
  (pIsoNaiveRaw cs).bind fun (y, mo, d, h, mi, s) =>
    mkValidDT y mo d h mi s none

/-- Raw field parse for `"%Y-%m-%d"`. -/
def pDateOnlyRaw (cs : List Char) : Option (Nat × Nat × Nat) := do
  let (y, cs) ← pDigitsExact 4 0 cs
  let cs ← pLit '-' cs
  let (mo, cs) ← pDigits2or1 cs
  let cs ← pLit '-' cs
  let (d, cs) ← pDigits2or1 cs
  if cs.isEmpty then some (y, mo, d) else none

/-- Format 4: `"%Y-%m-%d"` (date only, naive; line 107). -/
def pFmt_dateOnly (cs : List Char) : Option DT :=
  (pDateOnlyRaw cs).bind fun (y, mo, d) => mkValidDT y mo d 0 0 0 none

/-- Raw field parse for `"%b %d, %Y"` / `"%B %d, %Y"` (month, day, year). -/
def pMonthDayYearRaw (pMonth : List Char → Option (Nat × List Char))
    (cs : List Char) : Option (Nat × Nat × Nat) := do
  let (mo, cs) ← pMonth cs
  let cs ← pWs cs
  let (d, cs) ← pDigits2or1 cs
  let cs ← pLit ',' cs
  let cs ← pWs cs
  let (y, cs) ← pDigitsExact 4 0 cs
  if cs.isEmpty then some (mo, d, y) else none

/-- Format 5: `"%b %d, %Y"` (line 117). -/
def pFmt_bdY (cs : List Char) : Option DT :=
  (pMonthDayYearRaw pMonthAbbr cs).bind fun (mo, d, y) => mkValidDT y mo d 0 0 0 none

/-- Format 6: `"%B %d, %Y"` (line 117). -/
def pFmt_BdY (cs : List Char) : Option DT :=
  (pMonthDayYearRaw pMonthFull cs).bind fun (mo, d, y) => mkValidDT y mo d 0 0 0 none

/-- Raw field parse for `"%d %b %Y"` / `"%d %B %Y"` (day, month, year). -/
def pDayMonthYearRaw (pMonth : List Char → Option (Nat × List Char))
    (cs : List Char) : Option (Nat × Nat × Nat) := do
  let (d, cs) ← pDigits2or1 cs
  let cs ← pWs cs
  let (mo, cs) ← pMonth cs
  let cs ← pWs cs
  let (y, cs) ← pDigitsExact 4 0 cs
  if cs.isEmpty then some (d, mo, y) else none

/-- Format 7: `"%d %b %Y"` (line 117). -/
def pFmt_dbY (cs : List Char) : Option DT :=
  (pDayMonthYearRaw pMonthAbbr cs).bind fun (d, mo, y) => mkValidDT y mo d 0 0 0 none

/-- Format 8: `"%d %B %Y"` (line 117). -/
def pFmt_dBY (cs : List Char) : Option DT :=
  (pDayMonthYearRaw pMonthFull cs).bind fun (d, mo, y) => mkValidDT y mo d 0 0 0 none

/-- Raw field parse for `"%Y/%m/%d"`. -/
def pSlashRaw (cs : List Char) : Option (Nat × Nat × Nat) := do
  let (y, cs) ← pDigitsExact 4 0 cs
  let cs ← pLit '/' cs
  let (mo, cs) ← pDigits2or1 cs
  let cs ← pLit '/' cs
  let (d, cs) ← pDigits2or1 cs
  if cs.isEmpty then some (y, mo, d) else none

/-- Format 9: `"%Y/%m/%d"` (line 117). -/
def pFmt_slash (cs : List Char) : Option DT :=
  (pSlashRaw cs).bind fun (y, mo, d) => mkValidDT y mo d 0 0 0 none

/-- Line 110-111: `if dt.tzinfo is None: dt = dt.replace(tzinfo=timezone.utc)`. -/
def withUtcIfNaive (dt : DT) : DT :=
  match dt.tzOffset with
  | none => { dt with tzOffset := some 0 }
  | some _ => dt

/-- Line 120: `dt = dt.replace(tzinfo=timezone.utc)`. -/
def forceUtc (dt : DT) : DT :=
  { dt with tzOffset := some 0 }

/-- The ISO attempt loop (lines 107-114): first matching format wins, then a
naive result is assigned UTC. -/
def tryIso (s : String) : Option DT :=
  match pFmt_isoTz (pyStrip s) <|> pFmt_isoFracTz (pyStrip s) <|>
      pFmt_isoNaive (pyStrip s) <|> pFmt_dateOnly (pyStrip s) with
  | some dt => some (withUtcIfNaive dt)
  | none => none

/-- The human-format attempt loop (lines 117-123): first match wins and is
assigned UTC. -/
def tryHuman (s : String) : Option DT :=
  match pFmt_bdY (pyStrip s) <|> pFmt_BdY (pyStrip s) <|> pFmt_dbY (pyStrip s) <|>
      pFmt_dBY (pyStrip s) <|> pFmt_slash (pyStrip s) with
  | some dt => some (forceUtc dt)
  | none => none

/-- Two-digit zero padding (`%d`, `%H`, `%M`, `%S`). -/
def pad2 (n : Nat) : String :=
  if n < 10 then "0" ++ toString n else toString n

/-- Abbreviated day names, `%a`, indexed with 0 = Sunday. -/
def dayNames : List String := ["Sun", "Mon", "Tue", "Wed", "Thu", "Fri", "Sat"]

/-- Capitalized month abbreviations, `%b` output. -/
def monthAbbrsOut : List String :=
  ["Jan", "Feb", "Mar", "Apr", "May", "Jun", "Jul", "Aug", "Sep", "Oct", "Nov", "Dec"]

/-- Sakamoto's day-of-week table. -/
def sakamotoT : List Nat := [0, 3, 2, 5, 0, 3, 5, 1, 4, 6, 2, 4]

/-- Day of week (0 = Sunday) of a Gregorian date, Sakamoto's method. -/
def dayOfWeek (y m d : Nat) : Nat :=
  let y' := if m < 3 then y - 1 else y
  (y' + y' / 4 - y' / 100 + y' / 400 + sakamotoT.getD (m - 1) 0 + d) % 7

/-- Offset as `%z` prints it: empty for a naive datetime, else `±HHMM`. -/
def formatOffset : Option Int → String
  | none => ""
  | some off =>
    (if off < 0 then "-" else "+") ++ pad2 (off.natAbs / 60) ++ pad2 (off.natAbs % 60)

/-- Everything the output format prints before the `%z` field:
`"%a, %d %b %Y %H:%M:%S "`. -/
def formatRFCBody (dt : DT) : String :=
  dayNames.getD (dayOfWeek dt.year dt.month dt.day) "Sun" ++ ", " ++
  pad2 dt.day ++ " " ++ monthAbbrsOut.getD (dt.month - 1) "Jan" ++ " " ++
  toString dt.year ++ " " ++ pad2 dt.hour ++ ":" ++ pad2 dt.minute ++ ":" ++
  pad2 dt.second ++ " "

/-- The output format `"%a, %d %b %Y %H:%M:%S %z"` (lines 101, 126, 129). -/
def formatRFC (dt : DT) : String :=
  formatRFCBody dt ++ formatOffset dt.tzOffset

/-- Function `normalize_pubdate` (lines 95-129).  `now` stands for
`datetime.now(timezone.utc)` at the two points where the current time is
sampled; the function is total, so no parse error ever escapes. -/
def normalize_pubdate (now : DT) : Option String → String
  | none => formatRFC now
  | some s =>
    if s = "" then formatRFC now
    else
      match tryIso s with
      | some dt => formatRFC dt
      | none =>
        match tryHuman s with
        | some dt => formatRFC dt
        | none => formatRFC now

theorem mkValidDT_eq_some {y mo d h mi s : Nat} {tz : Option Int} {dt : DT}
    (hm : mkValidDT y mo d h mi s tz = some dt) :
    dtOk dt = true ∧ dt = ⟨y, mo, d, h, mi, s, tz⟩ := by
  simp only [mkValidDT] at hm
  split at hm
  · obtain rfl := Option.some_injective _ hm
    exact ⟨by assumption, rfl⟩
  · exact absurd hm (by simp)

theorem orElse_cases {α : Type} {o1 o2 : Option α} {x : α}
    (h : (o1 <|> o2) = some x) : o1 = some x ∨ o2 = some x := by
  cases o1 <;> simp_all

theorem pFmt_isoTz_shape {cs : List Char} {dt : DT}
    (h : pFmt_isoTz cs = some dt) : dtOk dt = true ∧ ∃ off, dt.tzOffset = some off := by
  obtain ⟨⟨y, mo, d, hh, mi, s, off⟩, -, hmk⟩ := Option.bind_eq_some.mp h
  obtain ⟨hok, rfl⟩ := mkValidDT_eq_some hmk
  exact ⟨hok, off, rfl⟩

theorem pFmt_isoFracTz_shape {cs : List Char} {dt : DT}
    (h : pFmt_isoFracTz cs = some dt) : dtOk dt = true ∧ ∃ off, dt.tzOffset = some off := by
  obtain ⟨⟨y, mo, d, hh, mi, s, off⟩, -, hmk⟩ := Option.bind_eq_some.mp h
  obtain ⟨hok, rfl⟩ := mkValidDT_eq_some hmk
  exact ⟨hok, off, rfl⟩

theorem pFmt_isoNaive_valid {cs : List Char} {dt : DT}
    (h : pFmt_isoNaive cs = some dt) : dtOk dt = true := by
  obtain ⟨⟨y, mo, d, hh, mi, s⟩, -, hmk⟩ := Option.bind_eq_some.mp h
  exact (mkValidDT_eq_some hmk).1

theorem pFmt_dateOnly_valid {cs : List Char} {dt : DT}
    (h : pFmt_dateOnly cs = some dt) : dtOk dt = true := by
  obtain ⟨⟨y, mo, d⟩, -, hmk⟩ := Option.bind_eq_some.mp h
  exact (mkValidDT_eq_some hmk).1

theorem pFmt_bdY_valid {cs : List Char} {dt : DT}
    (h : pFmt_bdY cs = some dt) : dtOk dt = true := by
  obtain ⟨⟨mo, d, y⟩, -, hmk⟩ := Option.bind_eq_some.mp h
  exact (mkValidDT_eq_some hmk).1

theorem pFmt_BdY_valid {cs : List Char} {dt : DT}
    (h : pFmt_BdY cs = some dt) : dtOk dt = true := by
  obtain ⟨⟨mo, d, y⟩, -, hmk⟩ := Option.bind_eq_some.mp h
  exact (mkValidDT_eq_some hmk).1

theorem pFmt_dbY_valid {cs : List Char} {dt : DT}
    (h : pFmt_dbY cs = some dt) : dtOk dt = true := by
  obtain ⟨⟨d, mo, y⟩, -, hmk⟩ := Option.bind_eq_some.mp h
  exact (mkValidDT_eq_some hmk).1

theorem pFmt_dBY_valid {cs : List Char} {dt : DT}
    (h : pFmt_dBY cs = some dt) : dtOk dt = true := by
  obtain ⟨⟨d, mo, y⟩, -, hmk⟩ := Option.bind_eq_some.mp h
  exact (mkValidDT_eq_some hmk).1

theorem pFmt_slash_valid {cs : List Char} {dt : DT}
    (h : pFmt_slash cs = some dt) : dtOk dt = true := by
  obtain ⟨⟨y, mo, d⟩, -, hmk⟩ := Option.bind_eq_some.mp h
  exact (mkValidDT_eq_some hmk).1

theorem dtOk_setUtc {dt : DT} (h : dtOk dt = true) :
    dtOk { dt with tzOffset := some 0 } = true := by
  unfold dtOk at h ⊢
  simp only [Bool.and_eq_true, Option.all] at h ⊢
  exact ⟨h.1, by decide⟩

theorem dtOk_withUtcIfNaive {dt : DT} (h : dtOk dt = true) :
    dtOk (withUtcIfNaive dt) = true := by
  unfold withUtcIfNaive
  rcases htz : dt.tzOffset with _ | off
  · exact dtOk_setUtc h
  · exact h

theorem tryIso_valid {s : String} {dt : DT} (h : tryIso s = some dt) :
    dtOk dt = true := by
  unfold tryIso at h
  rcases he : (pFmt_isoTz (pyStrip s) <|> pFmt_isoFracTz (pyStrip s) <|>
      pFmt_isoNaive (pyStrip s) <|> pFmt_dateOnly (pyStrip s)) with _ | dt'
  · rw [he] at h; exact absurd h (by simp)
  · rw [he] at h
    simp only [Option.some.injEq] at h
    subst h
    have hdt' : dtOk dt' = true := by
      rcases orElse_cases he with h1 | hrest
      · exact (pFmt_isoTz_shape h1).1
      rcases orElse_cases hrest with h2 | hrest2
      · exact (pFmt_isoFracTz_shape h2).1
      rcases orElse_cases hrest2 with h3 | h4
      · exact pFmt_isoNaive_valid h3
      · exact pFmt_dateOnly_valid h4
    exact dtOk_withUtcIfNaive hdt'

theorem tryHuman_valid {s : String} {dt : DT} (h : tryHuman s = some dt) :
    dtOk dt = true := by
  unfold tryHuman at h
  rcases he : (pFmt_bdY (pyStrip s) <|> pFmt_BdY (pyStrip s) <|> pFmt_dbY (pyStrip s) <|>
      pFmt_dBY (pyStrip s) <|> pFmt_slash (pyStrip s)) with _ | dt'
  · rw [he] at h; exact absurd h (by simp)
  · rw [he] at h
    simp only [Option.some.injEq] at h
    subst h
    have hdt' : dtOk dt' = true := by
      rcases orElse_cases he with h1 | hrest
      · exact pFmt_bdY_valid h1
      rcases orElse_cases hrest with h2 | hrest2
      · exact pFmt_BdY_valid h2
      rcases orElse_cases hrest2 with h3 | hrest3
      · exact pFmt_dbY_valid h3
      rcases orElse_cases hrest3 with h4 | h5
      · exact pFmt_dBY_valid h4
      · exact pFmt_slash_valid h5
    exact dtOk_setUtc hdt'

/-- C3: a date-only ISO string is parsed as UTC midnight and a month-name
date as the same instant, both printed in the canonical format. -/
theorem normalize_pubdate_examples (now : DT) :
    normalize_pubdate now (some "2024-03-05") = "Tue, 05 Mar 2024 00:00:00 +0000" ∧
    normalize_pubdate now (some "March 5, 2024") = "Tue, 05 Mar 2024 00:00:00 +0000" :=
  ⟨rfl, rfl⟩

/-- C4: `normalize_pubdate` is total; its output is always the canonical
formatting of a constructor-valid datetime; absent, empty, and unparseable
inputs all yield the formatted current time. -/
theorem normalize_pubdate_never_fails (now : DT) (hnow : dtOk now = true) :
    (∀ raw : Option String, ∃ dt : DT, dtOk dt = true ∧
        normalize_pubdate now raw = formatRFC dt) ∧
    normalize_pubdate now none = formatRFC now ∧
    normalize_pubdate now (some "") = formatRFC now ∧
    (∀ s : String, tryIso s = none → tryHuman s = none →
        normalize_pubdate now (some s) = formatRFC now) := by
  have hfall : ∀ s : String, tryIso s = none → tryHuman s = none →
      normalize_pubdate now (some s) = formatRFC now := by
    intro s hiso hhum
    by_cases hs : s = ""
    · subst hs; rfl
    · simp [normalize_pubdate, hs, hiso, hhum]
  refine ⟨?_, rfl, rfl, hfall⟩
  intro raw
  match raw with
  | none => exact ⟨now, hnow, rfl⟩
  | some s =>
    by_cases hs : s = ""
    · subst hs; exact ⟨now, hnow, rfl⟩
    · rcases hiso : tryIso s with _ | dt
      · rcases hhum : tryHuman s with _ | dt
        · exact ⟨now, hnow, hfall s hiso hhum⟩
        · exact ⟨dt, tryHuman_valid hhum, by simp [normalize_pubdate, hs, hiso, hhum]⟩
      · exact ⟨dt, tryIso_valid hiso, by simp [normalize_pubdate, hs, hiso]⟩

/-- A concrete current time for the witnesses (an aware UTC datetime). -/
def nowSample : DT := ⟨2024, 3, 5, 12, 0, 0, some 0⟩

theorem normalize_pubdate_never_fails_witness :
    (∀ raw : Option String, ∃ dt : DT, dtOk dt = true ∧
        normalize_pubdate nowSample raw = formatRFC dt) ∧
    normalize_pubdate nowSample none = formatRFC nowSample ∧
    normalize_pubdate nowSample (some "") = formatRFC nowSample ∧
    (∀ s : String, tryIso s = none → tryHuman s = none →
        normalize_pubdate nowSample (some s) = formatRFC nowSample) :=
  normalize_pubdate_never_fails nowSample (by decide)

/-- C10: an input matching a `%z` format with a non-UTC offset is formatted
in that original offset (the wall-clock fields and offset are kept; nothing
converts the instant to UTC), while only naive and human-format inputs get
UTC assigned. -/
theorem normalize_pubdate_offset_preserved (now : DT) :
    normalize_pubdate now (some "2024-03-05T10:00:00+0500")
      = "Tue, 05 Mar 2024 10:00:00 +0500" ∧
    (∀ (s : String) (dt : DT), s ≠ "" →
      pFmt_isoTz (pyStrip s) = some dt →
      normalize_pubdate now (some s) = formatRFC dt ∧
      ∃ off, dt.tzOffset = some off ∧
        formatRFC dt = formatRFCBody dt ++ formatOffset (some off)) ∧
    (∀ (s : String) (dt : DT), s ≠ "" →
      pFmt_isoTz (pyStrip s) = none →
      pFmt_isoFracTz (pyStrip s) = some dt →
      normalize_pubdate now (some s) = formatRFC dt ∧
      ∃ off, dt.tzOffset = some off) := by
  refine ⟨rfl, ?_, ?_⟩
  · intro s dt hs hp
    obtain ⟨-, off, hoff⟩ := pFmt_isoTz_shape hp
    have hiso : tryIso s = some dt := by
      simp [tryIso, hp, withUtcIfNaive, hoff]
    refine ⟨by simp [normalize_pubdate, hs, hiso], off, hoff, ?_⟩
    rw [← hoff]
    rfl
  · intro s dt hs hp1 hp2
    obtain ⟨-, off, hoff⟩ := pFmt_isoFracTz_shape hp2
    have hiso : tryIso s = some dt := by
      simp [tryIso, hp1, hp2, withUtcIfNaive, hoff]
    exact ⟨by simp [normalize_pubdate, hs, hiso], off, hoff⟩

theorem normalize_pubdate_offset_preserved_witness :
    normalize_pubdate nowSample (some "2024-03-05T10:00:00+0500")
      = formatRFC ⟨2024, 3, 5, 10, 0, 0, some 300⟩ ∧
    ∃ off, (⟨2024, 3, 5, 10, 0, 0, some 300⟩ : DT).tzOffset = some off ∧
      formatRFC ⟨2024, 3, 5, 10, 0, 0, some 300⟩
        = formatRFCBody ⟨2024, 3, 5, 10, 0, 0, some 300⟩ ++ formatOffset (some off) :=
  (normalize_pubdate_offset_preserved nowSample).2.1 "2024-03-05T10:00:00+0500"
    ⟨2024, 3, 5, 10, 0, 0, some 300⟩ (by decide) (by decide)

/-! ### Feed Assembler

`build_rss` (lines 131-156) constructs an `xml.etree.ElementTree` tree and
writes a handwritten XML declaration followed by
`ET.tostring(rss, encoding="utf-8")`.  In this Python version `tostring`
with encoding `utf-8` emits no declaration of its own, text set to `""` or
left unset serializes as a self-closing element, and text is escaped with
`&amp;`/`&lt;`/`&gt;`.  The current time is sampled once for
`lastBuildDate` and inside each per-item `normalize_pubdate` call; the
embedding passes the same `now` to both. -/

/-- An ElementTree element: tag, attributes, text and children.  Text `""`
models both unset (`None`) text and the empty string, which `ET` treats the
same way when serializing. -/
inductive Xml where
  | elem (tag : String) (attrs : List (String × String)) (text : String)
      (children : List Xml)
deriving Repr

def Xml.tag : Xml → String
  | .elem t _ _ _ => t

def Xml.text : Xml → String
  | .elem _ _ t _ => t

def Xml.children : Xml → List Xml
  | .elem _ _ _ c => c

/-- Constant `START_URL` (line 15). -/
def START_URL : String := "https://www.csis.org/analysis"

/-- One `<item>` element (lines 141-148). -/
def itemXml (now : DT) (it : Record) : Xml :=
  .elem "item" [] ""
    [.elem "title" [] it.title [],
     .elem "link" [] it.link [],
     .elem "guid" [] it.link [],
     .elem "description" [] it.summary [],
     .elem "pubDate" [] (normalize_pubdate now it.pubdateRaw) []]

/-- The document tree `build_rss` assembles (lines 133-148).  The
`description` child's text is `it["summary"] or ""`, which equals
`it.summary` because both the empty summary and `""` serialize alike. -/
def build_rss_tree (now : DT) (items : List Record) : Xml :=
  .elem "rss" [("version", "2.0")] ""
    [.elem "channel" [] ""
      ([.elem "title" [] "CSIS — Analysis (custom RSS)" [],
        .elem "link" [] START_URL [],
        .elem "description" [] "Auto-generated RSS feed for CSIS Analysis pages." [],
        .elem "lastBuildDate" [] (formatRFC now) [],
        .elem "ttl" [] "60" []] ++ items.map (itemXml now))]

/-- ElementTree text escaping (`_escape_cdata`): `&`, `<`, `>`. -/
def escapeCdata : List Char → List Char
  | [] => []
  | '&' :: r => '&' :: 'a' :: 'm' :: 'p' :: ';' :: escapeCdata r
  | '<' :: r => '&' :: 'l' :: 't' :: ';' :: escapeCdata r
  | '>' :: r => '&' :: 'g' :: 't' :: ';' :: escapeCdata r
  | c :: r => c :: escapeCdata r

/-- ElementTree attribute escaping (`_escape_attrib`, the characters that
occur here): `&`, `<`, `>`, `"`. -/
def escapeAttrib : List Char → List Char
  | [] => []
  | '&' :: r => '&' :: 'a' :: 'm' :: 'p' :: ';' :: escapeAttrib r
  | '<' :: r => '&' :: 'l' :: 't' :: ';' :: escapeAttrib r
  | '>' :: r => '&' :: 'g' :: 't' :: ';' :: escapeAttrib r
  | '"' :: r => '&' :: 'q' :: 'u' :: 'o' :: 't' :: ';' :: escapeAttrib r
  | c :: r => c :: escapeAttrib r

mutual

/-- ElementTree serialization (`_serialize_xml` with default
`short_empty_elements=True`): an element with no text and no children is
written `<tag />`. -/
def serializeXml : Xml → String
  | .elem tag attrs text children =>
    let attrStr := String.join (attrs.map
      (fun kv => " " ++ kv.1 ++ "=\"" ++ String.mk (escapeAttrib kv.2.data) ++ "\""))
    if text.data.isEmpty && children.isEmpty then
      "<" ++ tag ++ attrStr ++ " />"
    else
      "<" ++ tag ++ attrStr ++ ">" ++ String.mk (escapeCdata text.data) ++
        serializeList children ++ "</" ++ tag ++ ">"

def serializeList : List Xml → String
  | [] => ""
  | x :: xs => serializeXml x ++ serializeList xs

end

/-- The byte buffer written to `rss.xml` (lines 150-155): the handwritten
declaration line, then `ET.tostring(rss, encoding="utf-8")`. -/
def rssBuffer (now : DT) (items : List Record) : String :=
  "<?xml version=\"1.0\" encoding=\"utf-8\"?>\n" ++
    serializeXml (build_rss_tree now items)

/-- Reading the document back: the channel element of the feed. -/
def channelOf (x : Xml) : Option Xml :=
  (x.children.filter (fun c => c.tag == "channel")).head?

/-- Reading the document back: the item elements of the channel, in order. -/
def itemsOf (x : Xml) : List Xml :=
  match channelOf x with
  | some ch => ch.children.filter (fun c => c.tag == "item")
  | none => []

/-- Reading the document back: the text of the first child with a tag. -/
def childText (tag : String) (x : Xml) : Option String :=
  ((x.children.filter (fun c => c.tag == tag)).head?).map Xml.text

theorem itemsOf_build (now : DT) (items : List Record) :
    itemsOf (build_rss_tree now items) = items.map (itemXml now) := by
  simp [itemsOf, channelOf, build_rss_tree, Xml.tag, Xml.children,
    List.filter_append]
  intro a _
  rfl

/-- C6: reading the assembled document back gives exactly one entry per
input record, in input order, with title/link/description/pubDate matching
and guid equal to the link; the buffer starts with the XML declaration line
naming the encoding; and assembling the empty list succeeds with an empty
item list. -/
theorem build_rss_roundtrip (now : DT) (items : List Record) :
    (itemsOf (build_rss_tree now items)).length = items.length ∧
    List.Forall₂ (fun (r : Record) (x : Xml) =>
      childText "title" x = some r.title ∧
      childText "link" x = some r.link ∧
      childText "guid" x = some r.link ∧
      childText "description" x = some r.summary ∧
      childText "pubDate" x = some (normalize_pubdate now r.pubdateRaw))
      items (itemsOf (build_rss_tree now items)) ∧
    strStarts (rssBuffer now items) "<?xml version=\"1.0\" encoding=\"utf-8\"?>\n"
      = true ∧
    itemsOf (build_rss_tree now []) = [] := by
  refine ⟨?_, ?_, ?_, ?_⟩
  · rw [itemsOf_build, List.length_map]
  · rw [itemsOf_build]
    rw [List.forall₂_map_right_iff]
    refine List.forall₂_same.mpr ?_
    intro r _
    exact ⟨rfl, rfl, rfl, rfl, rfl⟩
  · unfold rssBuffer strStarts
    rw [String.data_append]
    exact List.isPrefixOf_iff_prefix.mpr (List.prefix_append _ _)
  · rw [itemsOf_build]
    rfl

/-! ### Top-level driver -/

/-- Observable outcome of one run of `main` (lines 158-168): the process
exit status, the lines printed, and the buffer written to `rss.xml` (if
any). -/
structure RunResult where
  exitCode : Nat
  messages : List String
  written : Option String
deriving DecidableEq, Repr

/-- Function `main` (lines 158-168) with the collaborator's fetch outcome as
input: a fetch exception exits 1 after `print("ERROR fetching:", e)`; an
empty parse result exits 1 after `print("No items found. Exiting.")`;
otherwise `build_rss` writes the buffer and prints the count (line 156) and
the process ends with status 0. -/
def mainRun (now : DT) (fetch : Except String Page) : RunResult :=
  match fetch with
  | .error e => ⟨1, ["ERROR fetching: " ++ e], none⟩
  | .ok page =>
    let items := parse_articles page
    if items.isEmpty then ⟨1, ["No items found. Exiting."], none⟩
    else
      ⟨0, ["Wrote rss.xml with " ++ toString items.length ++ " items"],
        some (rssBuffer now items)⟩

/-- C8: the driver exits non-zero exactly on the two fatal cases (fetch
failure, zero extracted items), printing a message naming the failure class,
and on success prints the confirmation with the item count and exits 0. -/
theorem main_exit_behavior (now : DT) (fetch : Except String Page) :
    ((mainRun now fetch).exitCode ≠ 0 ↔
      (∃ e, fetch = .error e) ∨ (∃ p, fetch = .ok p ∧ parse_articles p = [])) ∧
    (∀ e, fetch = .error e →
      mainRun now fetch = ⟨1, ["ERROR fetching: " ++ e], none⟩) ∧
    (∀ p, fetch = .ok p → parse_articles p = [] →
      mainRun now fetch = ⟨1, ["No items found. Exiting."], none⟩) ∧
    (∀ p, fetch = .ok p → parse_articles p ≠ [] →
      mainRun now fetch
        = ⟨0, ["Wrote rss.xml with " ++ toString (parse_articles p).length ++ " items"],
            some (rssBuffer now (parse_articles p))⟩) := by
  cases fetch with
  | error e =>
    refine ⟨?_, ?_, ?_, ?_⟩
    · exact ⟨fun _ => Or.inl ⟨e, rfl⟩, fun _ => by simp [mainRun]⟩
    · intro e' he
      injection he with h
      subst h
      rfl
    · intro p hp _
      simp at hp
    · intro p hp _
      simp at hp
  | ok page =>
    by_cases hempty : parse_articles page = []
    · refine ⟨?_, ?_, ?_, ?_⟩
      · exact ⟨fun _ => Or.inr ⟨page, rfl, hempty⟩,
          fun _ => by simp [mainRun, hempty]⟩
      · intro e he
        simp at he
      · intro p hp _
        injection hp with h
        subst h
        simp [mainRun, hempty]
      · intro p hp hne
        injection hp with h
        subst h
        exact absurd hempty hne
    · refine ⟨?_, ?_, ?_, ?_⟩
      · constructor
        · intro hne0
          exfalso
          apply hne0
          simp [mainRun, List.isEmpty_iff, hempty]
        · rintro (⟨e, he⟩ | ⟨p, hp, hemp⟩)
          · simp at he
          · injection hp with h
            subst h
            exact absurd hemp hempty
      · intro e he
        simp at he
      · intro p hp hemp
        injection hp with h
        subst h
        exact absurd hemp hempty
      · intro p hp _
        injection hp with h
        subst h
        simp [mainRun, List.isEmpty_iff, hempty]

theorem main_exit_behavior_witness :
    mainRun nowSample (Except.error "boom")
      = ⟨1, ["ERROR fetching: boom"], none⟩ :=
  (main_exit_behavior nowSample (Except.error "boom")).2.1 "boom" rfl

end RssGen
